import Mathlib

/-!
Verification of the perimedes interactive lock-screen controller
(`src/lockscreen.rs`, with constants from `src/constants.rs`).

The embedding models:
* the verdict scan over a service reply performed at the end of
  `process_message_with_claude` (substring checks for the two tokens,
  `split("LOCK:")`, `trim`, `parse::<u64>` and `clamp`);
* the keyboard handling of `get_user_input` (`process_key_input`,
  `check_unlock_phrase`, the Enter/Escape/Backspace dispatch and the
  transcript entries it pushes);
* the turn loop of `handle_interactive_chat` (bounded by `MAX_MESSAGES`,
  counting remote calls);
* the transcript mutations of one user turn (including the transient
  "Claude is thinking..." entry that is pushed and popped);
* the grab retry loop of `grab_keyboard_and_mouse` and the order of
  grabbing versus mapping the window in `decide`.

Strings are modelled as `List Char` (Rust `String` is UTF-8 text; every
operation used by the code is character-based).
-/

namespace Perimedes

/-- Constants from `src/constants.rs`. -/
def MAX_MESSAGES : Nat := 4

def MIN_LOCK_MINUTES : Nat := 1

def MAX_LOCK_MINUTES : Nat := 10

def BG_COLOR : Nat := 0x282828

def TEXT_COLOR : Nat := 0xebdbb2

def SYSTEM_COLOR : Nat := 0xfabd2f

def USER_COLOR : Nat := 0x83a598

def ASSISTANT_COLOR : Nat := 0xb8bb26

-- Keysym constants from the `keysym` module of `src/constants.rs`.
namespace keysym

def SPACE : Nat := 0x20

def ENTER : Nat := 0xff0d

def ESCAPE : Nat := 0xff1b

def BACKSPACE : Nat := 0xff08

end keysym

/-- The configured unlock phrase (`UNLOCK_PHRASE` in `src/main.rs` and
`src/constants.rs`). -/
def UNLOCK_PHRASE : List Char := "UNLOCK".data

/-- The token scanned first in a reply: `response.contains("UNLOCK")`. -/
def unlockToken : List Char := "UNLOCK".data

/-- The token scanned second in a reply: `response.contains("LOCK:")`. -/
def lockToken : List Char := "LOCK:".data

/-- The hard-coded auto-unlock line compared against
`input_buffer.trim().to_lowercase()` in `get_user_input`. -/
def unlockPlsText : List Char := "unlock pls".data

/-- Transcript text of the transient thinking entry. -/
def thinkingText : List Char := "Claude is thinking...".data

/-- Transcript text of the auto-unlock decision entry. -/
def autoUnlockText : List Char := "UNLOCKING SCREEN (Auto-unlock)".data

/-- Transcript text of the unlock decision entry. -/
def unlockingText : List Char := "UNLOCKING SCREEN".data

/-- Leading part of the timed-lock decision entry. -/
def lockedPre : List Char := "SCREEN LOCKED FOR ".data

/-- Trailing part of the timed-lock decision entry. -/
def lockedPost : List Char := " MINUTES".data

/-- Text of the timed-lock decision entry
(`format!("SCREEN LOCKED FOR {} MINUTES", minutes)`). -/
def lockedText (n : Nat) : List Char := lockedPre ++ (Nat.repr n).data ++ lockedPost

/-- Transcript entry kinds (`ChatMessage` in `src/constants.rs`). -/
inductive ChatMessage where
  | System (text : List Char)
  | User (text : List Char)
  | Assistant (text : List Char)
  | Decision (text : List Char)
deriving DecidableEq, Repr

/-- A displayed transcript entry: the message together with its color, as
stored in the `messages: VecDeque<(ChatMessage, u32)>` field of
`LockWindow`. -/
abbrev Entry := ChatMessage × Nat

/-- Result of a lock-screen session (`LockResult` in `src/lockscreen.rs`). -/
inductive LockResult where
  | Unlocked
  | TimedLock (minutes : Nat)
deriving DecidableEq, Repr

/-- Index of the first occurrence of `sep` in `s`, scanning left to right,
as Rust's `str::find`/`split` machinery does. -/
def findSub (sep : List Char) : List Char → Option Nat
  | [] => if sep.isPrefixOf ([] : List Char) then some 0 else none
  | a :: t =>
    if sep.isPrefixOf (a :: t) then some 0
    else (findSub sep t).map (fun n => n + 1)

/-- Rust `str::contains(pat)`: `pat` occurs somewhere in `s`. -/
def containsSub (pat s : List Char) : Bool := (findSub pat s).isSome

/-- The remainder of `s` after the first occurrence of `sep`. -/
def afterFirstSub (sep s : List Char) : Option (List Char) :=
  (findSub sep s).map (fun i => s.drop (i + sep.length))

/-- Element 1 of Rust's `s.split(sep).collect::<Vec<_>>()`: the text
between the end of the first occurrence of `sep` and the start of the
next occurrence (or the end of the string).  `none` when `sep` does not
occur, in which case the collected vector has fewer than two parts. -/
def splitPart1 (sep s : List Char) : Option (List Char) :=
  (afterFirstSub sep s).map (fun r =>
    match findSub sep r with
    | none => r
    | some j => r.take j)

/-- Whitespace characters stripped by Rust's `str::trim`
(`char::is_whitespace`). -/
def isRustWhitespace (c : Char) : Bool :=
  c.toNat = 0x9 || c.toNat = 0xa || c.toNat = 0xb || c.toNat = 0xc ||
  c.toNat = 0xd || c.toNat = 0x20 || c.toNat = 0x85 || c.toNat = 0xa0 ||
  c.toNat = 0x1680 || (0x2000 ≤ c.toNat && c.toNat ≤ 0x200a) ||
  c.toNat = 0x2028 || c.toNat = 0x2029 || c.toNat = 0x202f ||
  c.toNat = 0x205f || c.toNat = 0x3000

/-- Rust `str::trim`: strip whitespace from both ends. -/
def trimChars (s : List Char) : List Char :=
  ((s.dropWhile isRustWhitespace).reverse.dropWhile isRustWhitespace).reverse

/-- Decimal value of a digit list. -/
def digitsToNat (l : List Char) : Nat :=
  l.foldl (fun acc c => acc * 10 + (c.toNat - 48)) 0

/-- Rust `str::parse::<u64>()`: an optional leading `+`, then one or more
ASCII digits, value below `2 ^ 64`; anything else is a parse error. -/
def parseU64 (s : List Char) : Option Nat :=
  let digits :=
    match s with
    | '+' :: r => r
    | _ => s
  if digits = [] then none
  else if digits.all (fun c => c.isDigit) then
    if digitsToNat digits < 2 ^ 64 then some (digitsToNat digits) else none
  else none

/-- Rust `u64::clamp(lo, hi)`. -/
def clampU64 (n lo hi : Nat) : Nat :=
  if n < lo then lo else if n > hi then hi else n

/-- The verdict scan at the end of `process_message_with_claude`
(src/lockscreen.rs lines 597-645): `UNLOCK` anywhere wins; otherwise a
`LOCK:` occurrence is split off, its following segment trimmed and parsed
as `u64` and clamped to `[MIN_LOCK_MINUTES, MAX_LOCK_MINUTES]`, with
`MIN_LOCK_MINUTES` as the fallback when parsing fails; otherwise the turn
produces no decision (`Ok(None)`). -/
def scanVerdict (response : List Char) : Option LockResult :=
  if containsSub unlockToken response then some LockResult.Unlocked
  else if containsSub lockToken response then
    match splitPart1 lockToken response with
    | some part =>
      match parseU64 (trimChars part) with
      | some m =>
        some (LockResult.TimedLock (clampU64 m MIN_LOCK_MINUTES MAX_LOCK_MINUTES))
      | none => some (LockResult.TimedLock MIN_LOCK_MINUTES)
    | none => some (LockResult.TimedLock MIN_LOCK_MINUTES)
  else none

/-- The decision entry pushed by `process_message_with_claude` in each
verdict branch (none is pushed when the reply yields no decision). -/
def decisionPush (v : Option LockResult) : List Entry :=
  match v with
  | some LockResult.Unlocked => [(ChatMessage.Decision unlockingText, TEXT_COLOR)]
  | some (LockResult.TimedLock m) => [(ChatMessage.Decision (lockedText m), TEXT_COLOR)]
  | none => []

/-- The successive states of `lock.messages` over one submitted turn: the
state before the turn, after `get_user_input` pushes the `User` entry,
after `process_message_with_claude` pushes the transient thinking entry,
after it pops that entry back off, after it pushes the `Assistant` reply,
and after the decision push of the verdict branch (unchanged when the
reply yields no decision). -/
def turnMessageTrace (msgs : List Entry) (input reply : List Char) : List (List Entry) :=
  let m1 := msgs ++ [(ChatMessage.User input, USER_COLOR)]
  let m2 := m1 ++ [(ChatMessage.System thinkingText, SYSTEM_COLOR)]
  let m3 := m2.dropLast
  let m4 := m3 ++ [(ChatMessage.Assistant reply, ASSISTANT_COLOR)]
  let m5 := m4 ++ decisionPush (scanVerdict reply)
  [msgs, m1, m2, m3, m4, m5]

/-- The transcript at the end of one submitted turn. -/
def turnEndMessages (msgs : List Entry) (input reply : List Char) : List Entry :=
  (turnMessageTrace msgs input reply).getLastD []

/-- `process_key_input` (src/lockscreen.rs lines 244-272): the character
appended to the input buffer for a keysym, or `none` when the keysym is a
reserved control key or outside the space/digit/letter ranges. -/
def process_key_input (k : Nat) : Option Char :=
  if k = keysym.ENTER ∨ k = keysym.ESCAPE ∨ k = keysym.BACKSPACE then none
  else if k = keysym.SPACE then some ' '
  else if (0x30 ≤ k ∧ k ≤ 0x39) ∨ (0x41 ≤ k ∧ k ≤ 0x5a) ∨ (0x61 ≤ k ∧ k ≤ 0x7a) then
    some (Char.ofNat k)
  else none

/-- Rust `str::to_uppercase` restricted to the ASCII repertoire the input
buffer can contain. -/
def toUpperChars (s : List Char) : List Char := s.map Char.toUpper

/-- Rust `str::to_lowercase` restricted to the ASCII repertoire the input
buffer can contain. -/
def toLowerChars (s : List Char) : List Char := s.map Char.toLower

/-- `check_unlock_phrase` (src/lockscreen.rs line 402):
`input.to_uppercase() == unlock_phrase`. -/
def check_unlock_phrase (input phrase : List Char) : Bool :=
  toUpperChars input == phrase

/-- Outcome of `get_user_input`: either the sentinel auto-unlock return or
a submitted line. -/
inductive InputOutcome where
  | autoUnlock
  | submitted (line : List Char)
deriving DecidableEq, Repr

/-- One `KeyPress` event of the `get_user_input` loop
(src/lockscreen.rs lines 461-533), acting on the input buffer and the
transcript.  `Sum.inl` is the continue-looping state, `Sum.inr` a return
from the function. -/
def stepKey (phrase : List Char) (st : List Char × List Entry) (k : Nat) :
    (List Char × List Entry) ⊕ (InputOutcome × List Entry) :=
  let buf := st.1
  let msgs := st.2
  if k = keysym.ENTER then
    if buf = [] then Sum.inl (buf, msgs)
    else if toLowerChars (trimChars buf) = unlockPlsText then
      Sum.inr (InputOutcome.autoUnlock,
        msgs ++ [(ChatMessage.Decision autoUnlockText, TEXT_COLOR)])
    else
      Sum.inr (InputOutcome.submitted buf,
        msgs ++ [(ChatMessage.User buf, USER_COLOR)])
  else if k = keysym.ESCAPE then Sum.inl ([], msgs)
  else if k = keysym.BACKSPACE then Sum.inl (buf.dropLast, msgs)
  else
    match process_key_input k with
    | some c =>
      if check_unlock_phrase (buf ++ [c]) phrase then
        Sum.inr (InputOutcome.autoUnlock, msgs)
      else Sum.inl (buf ++ [c], msgs)
    | none => Sum.inl (buf, msgs)

/-- The `get_user_input` event loop over a finite list of key events;
`Sum.inl` means the loop is still waiting for input. -/
def runInput (phrase : List Char) :
    (List Char × List Entry) → List Nat →
    ((List Char × List Entry) ⊕ (InputOutcome × List Entry))
  | st, [] => Sum.inl st
  | st, k :: ks =>
    match stepKey phrase st k with
    | Sum.inl st2 => runInput phrase st2 ks
    | Sum.inr out => Sum.inr out

/-- `get_user_input`: the buffer is cleared on entry, then key events are
processed until a return. -/
def get_user_input (phrase : List Char) (msgs : List Entry) (keys : List Nat) :
    ((List Char × List Entry) ⊕ (InputOutcome × List Entry)) :=
  runInput phrase ([], msgs) keys

/-- One turn of `handle_interactive_chat` as seen by the loop: either
`get_user_input` returned the auto-unlock sentinel, or a line was
submitted and the remote service answered with `reply`. -/
inductive Turn where
  | autoUnlock
  | submit (reply : List Char)
deriving DecidableEq

/-- The loop body of `handle_interactive_chat`
(src/lockscreen.rs lines 416-447).  `turns i` is what turn `i` produces,
`fuel` the remaining iterations of `for i in 0..MAX_MESSAGES`.  The
result carries the number of remote calls made
(`process_message_with_claude` performs exactly one per submitted turn).
When the iterations are exhausted the forced verdict is
`TimedLock MIN_LOCK_MINUTES`. -/
def chatLoop (turns : Nat → Turn) (i fuel : Nat) : LockResult × Nat :=
  match fuel with
  | 0 => (LockResult.TimedLock MIN_LOCK_MINUTES, 0)
  | f + 1 =>
    match turns i with
    | Turn.autoUnlock => (LockResult.Unlocked, 0)
    | Turn.submit reply =>
      match scanVerdict reply with
      | some r => (r, 1)
      | none =>
        let p := chatLoop turns (i + 1) f
        (p.1, p.2 + 1)

/-- `handle_interactive_chat`: the chat loop started at turn 0 with
`MAX_MESSAGES` iterations. -/
def handle_interactive_chat (turns : Nat → Turn) : LockResult × Nat :=
  chatLoop turns 0 MAX_MESSAGES

/-- One `grab_keyboard` / `grab_pointer` round trip: `none` models an
errored reply, `some b` a reply whose status is `SUCCESS` iff `b`. -/
structure GrabAttempt where
  kb : Option Bool
  ptr : Option Bool
deriving DecidableEq, Repr

/-- A grab attempt counts as a success only when both replies arrived and
both statuses are `SUCCESS` (src/lockscreen.rs lines 296-299). -/
def attemptOk (a : GrabAttempt) : Bool :=
  a.kb == some true && a.ptr == some true

/-- Observable actions of `decide` relevant to the grab/map ordering. -/
inductive SessionEvent where
  | grabTry (i : Nat)
  | sleep100
  | mapWin
deriving DecidableEq, Repr

/-- Event trace of the retry loop of `grab_keyboard_and_mouse`
(src/lockscreen.rs lines 274-306): each failed attempt is followed by a
100 ms sleep; a successful attempt returns immediately. -/
def grabEvents (attempts : Nat → GrabAttempt) (i fuel : Nat) : List SessionEvent :=
  match fuel with
  | 0 => []
  | f + 1 =>
    if attemptOk (attempts i) then [SessionEvent.grabTry i]
    else SessionEvent.grabTry i :: SessionEvent.sleep100 :: grabEvents attempts (i + 1) f

/-- Result of the retry loop: the index of the first successful attempt,
or `none` when the fuel is exhausted (the `Err` return). -/
def grabResult (attempts : Nat → GrabAttempt) (i fuel : Nat) : Option Nat :=
  match fuel with
  | 0 => none
  | f + 1 =>
    if attemptOk (attempts i) then some i
    else grabResult attempts (i + 1) f

/-- `grab_keyboard_and_mouse`: six attempts starting at attempt 0. -/
def grab_keyboard_and_mouse (attempts : Nat → GrabAttempt) : Option Nat :=
  grabResult attempts 0 6

/-- The part of `decide` (src/lockscreen.rs lines 141-163) that orders
input seizure before mapping: the window is mapped only after
`grab_keyboard_and_mouse` returns `Ok`; a grab error propagates first. -/
def decideEvents (attempts : Nat → GrabAttempt) : List SessionEvent :=
  grabEvents attempts 0 6 ++
    (match grab_keyboard_and_mouse attempts with
     | some _ => [SessionEvent.mapWin]
     | none => [])

/-- True when a session event is a grab attempt. -/
def isGrabTry (e : SessionEvent) : Bool :=
  match e with
  | SessionEvent.grabTry _ => true
  | _ => false

/-- Reply used in concrete instances: both tokens present. -/
def exBothTokens : List Char := "You may go. UNLOCK LOCK:3".data

/-- Reply used in concrete instances: `LOCK:0`. -/
def exLock0 : List Char := "LOCK:0".data

/-- Reply used in concrete instances: `LOCK:15`. -/
def exLock15 : List Char := "LOCK:15".data

/-- Reply used in concrete instances: `LOCK:5`. -/
def exLock5 : List Char := "LOCK:5".data

/-- Reply used in concrete instances: unparsable integer after the token. -/
def exLockAbc : List Char := "LOCK:abc".data

/-- Concrete digit string used in the C2 witness. -/
def exSeven : List Char := "7".data

/-- Reply used in concrete instances: neither token occurs. -/
def exNeither : List Char := "Tell me what you were doing".data

/-- Reply used in concrete instances: neither token occurs. -/
def exNoTok : List Char := "keep explaining".data

/-- A configured phrase that is not all uppercase. -/
def exPhraseLower : List Char := "unlock".data

/-- The line `unlock` as typed text. -/
def exLowerLine : List Char := "unlock".data

/-- An input line whose trimmed lowercase form is `unlock pls`. -/
def exUnlockPlsLine : List Char := "Unlock Pls".data

/-- Key codes typing `unlock` followed by Enter. -/
def exLowerKeys : List Nat := [0x75, 0x6e, 0x6c, 0x6f, 0x63, 0x6b, keysym.ENTER]

/-- Key codes typing `UNLOCK` (no Enter). -/
def exUpperKeys : List Nat := [0x55, 0x4e, 0x4c, 0x4f, 0x43, 0x4b]

/-- Transcript input text used in concrete instances. -/
def exHi : List Char := "hi".data

/-- Transcript reply text used in concrete instances. -/
def exOk : List Char := "ok".data

theorem findSub_none_iff {sep s : List Char} :
    findSub sep s = none ↔ ∀ i, ¬ sep <+: s.drop i := by
  induction s with
  | nil =>
    by_cases hp : sep.isPrefixOf ([] : List Char)
    · simp only [findSub, if_pos hp]
      constructor
      · intro h; cases h
      · intro h
        exact absurd (List.isPrefixOf_iff_prefix.mp hp) (by simpa using h 0)
    · simp only [findSub, if_neg hp]
      constructor
      · intro _ i
        rw [List.drop_nil]
        exact fun hc => hp (List.isPrefixOf_iff_prefix.mpr hc)
      · intro _; trivial
  | cons a t ih =>
    by_cases hp : sep.isPrefixOf (a :: t)
    · simp only [findSub, if_pos hp]
      constructor
      · intro h; cases h
      · intro h
        exact absurd (List.isPrefixOf_iff_prefix.mp hp) (by simpa using h 0)
    · simp only [findSub, if_neg hp, Option.map_eq_none']
      rw [ih]
      constructor
      · intro h i
        match i with
        | 0 =>
          rw [List.drop_zero]
          exact fun hc => hp (List.isPrefixOf_iff_prefix.mpr hc)
        | j + 1 =>
          rw [List.drop_succ_cons]
          exact h j
      · intro h i
        have := h (i + 1)
        rwa [List.drop_succ_cons] at this

theorem findSub_some {sep s : List Char} {n : Nat} (h : findSub sep s = some n) :
    sep <+: s.drop n ∧ ∀ i, i < n → ¬ sep <+: s.drop i := by
  induction s generalizing n with
  | nil =>
    by_cases hp : sep.isPrefixOf ([] : List Char)
    · simp only [findSub, if_pos hp, Option.some.injEq] at h
      subst h
      exact ⟨by simpa using List.isPrefixOf_iff_prefix.mp hp, fun i hi => absurd hi (by omega)⟩
    · simp only [findSub, if_neg hp] at h
      cases h
  | cons a t ih =>
    by_cases hp : sep.isPrefixOf (a :: t)
    · simp only [findSub, if_pos hp, Option.some.injEq] at h
      subst h
      exact ⟨by simpa using List.isPrefixOf_iff_prefix.mp hp, fun i hi => absurd hi (by omega)⟩
    · simp only [findSub, if_neg hp, Option.map_eq_some'] at h
      obtain ⟨m, hm, rfl⟩ := h
      obtain ⟨h1, h2⟩ := ih hm
      refine ⟨by simpa [List.drop_succ_cons] using h1, fun i hi => ?_⟩
      match i with
      | 0 =>
        rw [List.drop_zero]
        exact fun hc => hp (List.isPrefixOf_iff_prefix.mpr hc)
      | j + 1 =>
        rw [List.drop_succ_cons]
        exact h2 j (by omega)

theorem findSub_eq {sep s : List Char} {n : Nat}
    (h1 : sep <+: s.drop n) (h2 : ∀ i, i < n → ¬ sep <+: s.drop i) :
    findSub sep s = some n := by
  cases hf : findSub sep s with
  | none => exact absurd h1 (findSub_none_iff.mp hf n)
  | some m =>
    obtain ⟨hm1, hm2⟩ := findSub_some hf
    rcases Nat.lt_trichotomy m n with h | h | h
    · exact absurd hm1 (h2 m h)
    · rw [h]
    · exact absurd h1 (hm2 n h)

theorem infix_iff_exists_drop {t s : List Char} :
    t <:+: s ↔ ∃ i, t <+: s.drop i := by
  constructor
  · rintro ⟨u, v, h⟩
    refine ⟨u.length, ?_⟩
    rw [← h, List.append_assoc, List.drop_left]
    exact List.prefix_append t v
  · rintro ⟨i, u, hu⟩
    exact ⟨s.take i, u, by rw [List.append_assoc, hu, List.take_append_drop]⟩

theorem containsSub_iff {pat s : List Char} :
    containsSub pat s = true ↔ pat <:+: s := by
  rw [containsSub, Option.isSome_iff_exists, infix_iff_exists_drop]
  constructor
  · rintro ⟨n, hn⟩
    exact ⟨n, (findSub_some hn).1⟩
  · rintro ⟨i, hi⟩
    cases hf : findSub pat s with
    | none => exact absurd hi (findSub_none_iff.mp hf i)
    | some m => exact ⟨m, rfl⟩

theorem containsSub_eq_false {pat s : List Char} (h : ¬ pat <:+: s) :
    containsSub pat s = false := by
  cases hc : containsSub pat s with
  | false => rfl
  | true => exact absurd (containsSub_iff.mp hc) h

theorem splitPart1_eq {a b : List Char}
    (hfirst : ∀ i, i < a.length → ¬ lockToken <+: (a ++ lockToken ++ b).drop i)
    (hb : ¬ lockToken <:+: b) :
    splitPart1 lockToken (a ++ lockToken ++ b) = some b := by
  have hpre : lockToken <+: (a ++ lockToken ++ b).drop a.length := by
    rw [List.append_assoc, List.drop_left]
    exact List.prefix_append lockToken b
  have hfind : findSub lockToken (a ++ lockToken ++ b) = some a.length :=
    findSub_eq hpre hfirst
  have hdrop : (a ++ lockToken ++ b).drop (a.length + lockToken.length) = b := by
    have : a.length + lockToken.length = (a ++ lockToken).length := by
      rw [List.length_append]
    rw [this, List.drop_left]
  have hnone : findSub lockToken b = none :=
    findSub_none_iff.mpr fun i hc => hb (infix_iff_exists_drop.mpr ⟨i, hc⟩)
  simp only [splitPart1, afterFirstSub, hfind, Option.map_some', hdrop, hnone]

theorem chatLoop_calls_le (fuel : Nat) :
    ∀ (i : Nat) (turns : Nat → Turn), (chatLoop turns i fuel).2 ≤ fuel := by
  induction fuel with
  | zero => intro i turns; simp [chatLoop]
  | succ f ih =>
    intro i turns
    cases ht : turns i with
    | autoUnlock => simp [chatLoop, ht]
    | submit r =>
      cases hv : scanVerdict r with
      | some v => simp [chatLoop, ht, hv]
      | none =>
        simp only [chatLoop, ht, hv]
        have := ih (i + 1) turns
        omega

theorem chatLoop_forced (fuel : Nat) :
    ∀ (i : Nat) (turns : Nat → Turn),
      (∀ j, j < fuel → ∃ r, turns (i + j) = Turn.submit r ∧ scanVerdict r = none) →
      chatLoop turns i fuel = (LockResult.TimedLock MIN_LOCK_MINUTES, fuel) := by
  induction fuel with
  | zero => intro i turns _; rfl
  | succ f ih =>
    intro i turns h
    obtain ⟨r, hr, hv⟩ := h 0 (by omega)
    rw [Nat.add_zero] at hr
    have hrec := ih (i + 1) turns (fun j hj => by
      obtain ⟨r2, hr2, hv2⟩ := h (j + 1) (by omega)
      exact ⟨r2, by rwa [show i + 1 + j = i + (j + 1) by omega], hv2⟩)
    simp [chatLoop, hr, hv, hrec]

/-- C1: a service reply containing both the literal substring `UNLOCK` and
a `LOCK:` token yields the verdict `Unlocked`: the `UNLOCK` check runs
first in `process_message_with_claude`. -/
theorem claim_C1 :
    ∀ response : List Char,
      containsSub unlockToken response = true →
      containsSub lockToken response = true →
      scanVerdict response = some LockResult.Unlocked := by
  intro r h1 _
  simp [scanVerdict, h1]

/-- Witness for C1 on a concrete reply holding both tokens. -/
theorem claim_C1_witness :
    containsSub unlockToken exBothTokens = true ∧
    containsSub lockToken exBothTokens = true ∧
    scanVerdict exBothTokens = some LockResult.Unlocked :=
  ⟨by decide, by decide, claim_C1 exBothTokens (by decide) (by decide)⟩

/-- C2: when the reply decomposes as `a ++ "LOCK:" ++ b` with the shown
occurrence the first one, no further `LOCK:` in `b`, and no `UNLOCK`
anywhere, the verdict is `TimedLock (clamp n 1 10)` when the trimmed `b`
parses as the integer `n`, and `TimedLock 1` when it does not parse;
in particular `LOCK:0` gives 1 minute, `LOCK:15` gives 10, `LOCK:5`
gives 5 and `LOCK:abc` gives 1. -/
theorem claim_C2 :
    (∀ a b : List Char, ∀ n : Nat,
      ¬ unlockToken <:+: (a ++ lockToken ++ b) →
      (∀ i, i < a.length → ¬ lockToken <+: (a ++ lockToken ++ b).drop i) →
      ¬ lockToken <:+: b →
      (parseU64 (trimChars b) = some n →
        scanVerdict (a ++ lockToken ++ b) =
          some (LockResult.TimedLock (clampU64 n MIN_LOCK_MINUTES MAX_LOCK_MINUTES))) ∧
      (parseU64 (trimChars b) = none →
        scanVerdict (a ++ lockToken ++ b) =
          some (LockResult.TimedLock MIN_LOCK_MINUTES))) ∧
    scanVerdict exLock0 = some (LockResult.TimedLock 1) ∧
    scanVerdict exLock15 = some (LockResult.TimedLock 10) ∧
    scanVerdict exLock5 = some (LockResult.TimedLock 5) ∧
    scanVerdict exLockAbc = some (LockResult.TimedLock 1) := by
  refine ⟨?_, by decide, by decide, by decide, by decide⟩
  intro a b n hU hF hB
  have hc1 : containsSub unlockToken (a ++ lockToken ++ b) = false :=
    containsSub_eq_false hU
  have hc2 : containsSub lockToken (a ++ lockToken ++ b) = true :=
    containsSub_iff.mpr ⟨a, b, rfl⟩
  have hsp := splitPart1_eq hF hB
  constructor
  · intro hp
    unfold scanVerdict
    rw [hc1, hc2, hsp]
    simp [hp]
  · intro hp
    unfold scanVerdict
    rw [hc1, hc2, hsp]
    simp [hp]

/-- Witness for C2 on the reply `LOCK:7`. -/
theorem claim_C2_witness :
    scanVerdict (List.nil ++ lockToken ++ exSeven) =
      some (LockResult.TimedLock (clampU64 7 MIN_LOCK_MINUTES MAX_LOCK_MINUTES)) :=
  (claim_C2.1 List.nil exSeven 7 (by decide)
    (by intro i hi; simp at hi) (by decide)).1 (by decide)

/-- C3: the chat loop runs at most `MAX_MESSAGES` (4) turns, so at most 4
remote calls; when all 4 replies yield no verdict the forced result is
`TimedLock MIN_LOCK_MINUTES` after exactly 4 remote calls (no fifth
request). -/
theorem claim_C3 :
    ∀ turns : Nat → Turn,
      (handle_interactive_chat turns).2 ≤ MAX_MESSAGES ∧
      ((∀ j, j < MAX_MESSAGES → ∃ r, turns j = Turn.submit r ∧ scanVerdict r = none) →
        handle_interactive_chat turns =
          (LockResult.TimedLock MIN_LOCK_MINUTES, MAX_MESSAGES)) := by
  intro turns
  refine ⟨chatLoop_calls_le MAX_MESSAGES 0 turns, fun h => ?_⟩
  exact chatLoop_forced MAX_MESSAGES 0 turns (fun j hj => by simpa using h j hj)

/-- Witness for C3 on a session whose four replies hold no token. -/
theorem claim_C3_witness :
    handle_interactive_chat (fun _ => Turn.submit exNeither) =
      (LockResult.TimedLock MIN_LOCK_MINUTES, MAX_MESSAGES) ∧
    (handle_interactive_chat (fun _ => Turn.submit exNeither)).2 ≤ MAX_MESSAGES :=
  ⟨(claim_C3 (fun _ => Turn.submit exNeither)).2
      (fun j _ => ⟨exNeither, rfl, by decide⟩),
   (claim_C3 (fun _ => Turn.submit exNeither)).1⟩

/-- C5 as stated is false: a reply with neither token yields no verdict at
all for that turn (`process_message_with_claude` returns `Ok(None)` and
the loop continues), not `ExtendLock(1)`. -/
theorem claim_C5_counterexample :
    containsSub unlockToken exNeither = false ∧
    containsSub lockToken exNeither = false ∧
    scanVerdict exNeither = none ∧
    scanVerdict exNeither ≠ some (LockResult.TimedLock MIN_LOCK_MINUTES) :=
  ⟨by decide, by decide, by decide, by decide⟩

/-- C5 amended: a reply containing neither token yields no verdict for
that turn, and the chat loop proceeds to the next turn adding one remote
call (only exhausting the turn limit forces `TimedLock MIN_LOCK_MINUTES`,
which is C3). -/
theorem claim_C5_amended :
    ∀ response : List Char,
      containsSub unlockToken response = false →
      containsSub lockToken response = false →
      scanVerdict response = none ∧
      ∀ (turns : Nat → Turn) (i fuel : Nat),
        turns i = Turn.submit response →
        chatLoop turns i (fuel + 1) =
          ((chatLoop turns (i + 1) fuel).1, (chatLoop turns (i + 1) fuel).2 + 1) := by
  intro r h1 h2
  have hv : scanVerdict r = none := by simp [scanVerdict, h1, h2]
  refine ⟨hv, fun turns i fuel ht => ?_⟩
  simp [chatLoop, ht, hv]

/-- Witness for the amended C5 on a concrete tokenless reply. -/
theorem claim_C5_witness :
    scanVerdict exNoTok = none ∧
    chatLoop (fun _ => Turn.submit exNoTok) 0 1 =
      ((chatLoop (fun _ => Turn.submit exNoTok) 1 0).1,
       (chatLoop (fun _ => Turn.submit exNoTok) 1 0).2 + 1) :=
  ⟨(claim_C5_amended exNoTok (by decide) (by decide)).1,
   (claim_C5_amended exNoTok (by decide) (by decide)).2
      (fun _ => Turn.submit exNoTok) 0 0 rfl⟩

theorem process_key_input_controls {k : Nat} {c : Char}
    (h : process_key_input k = some c) :
    ¬ (k = keysym.ENTER ∨ k = keysym.ESCAPE ∨ k = keysym.BACKSPACE) := by
  intro hk
  rw [process_key_input, if_pos hk] at h
  cases h

theorem check_unlock_phrase_iff {input phrase : List Char} :
    check_unlock_phrase input phrase = true ↔ toUpperChars input = phrase := by
  simp [check_unlock_phrase]

theorem stepKey_append {k : Nat} {c : Char} (phrase buf : List Char)
    (msgs : List Entry) (h : process_key_input k = some c) :
    stepKey phrase (buf, msgs) k =
      (if check_unlock_phrase (buf ++ [c]) phrase then
        Sum.inr (InputOutcome.autoUnlock, msgs)
      else Sum.inl (buf ++ [c], msgs)) := by
  have hk := process_key_input_controls h
  push_neg at hk
  obtain ⟨h1, h2, h3⟩ := hk
  simp only [stepKey, if_neg h1, if_neg h2, if_neg h3, h]

theorem chatLoop_auto (turns : Nat → Turn) (i f : Nat)
    (h : turns i = Turn.autoUnlock) :
    chatLoop turns i (f + 1) = (LockResult.Unlocked, 0) := by
  simp [chatLoop, h]

theorem runInput_upper_match :
    ∀ (keys : List Nat) (phrase buf : List Char) (msgs : List Entry),
      keys ≠ [] →
      (∀ k ∈ keys, (process_key_input k).isSome = true) →
      toUpperChars (buf ++ keys.filterMap process_key_input) = phrase →
      runInput phrase (buf, msgs) keys = Sum.inr (InputOutcome.autoUnlock, msgs) := by
  intro keys
  induction keys with
  | nil => intro phrase buf msgs hne _ _; exact absurd rfl hne
  | cons k ks ih =>
    intro phrase buf msgs _ hall hupper
    have hs : (process_key_input k).isSome = true := hall k (List.mem_cons_self k ks)
    obtain ⟨c, hc⟩ := Option.isSome_iff_exists.mp hs
    rw [List.filterMap_cons, hc] at hupper
    cases ks with
    | nil =>
      have hch : check_unlock_phrase (buf ++ [c]) phrase = true := by
        rw [check_unlock_phrase_iff]
        simpa using hupper
      simp only [runInput, stepKey_append phrase buf msgs hc, if_pos hch]
    | cons k2 ks2 =>
      by_cases hch : check_unlock_phrase (buf ++ [c]) phrase
      · simp only [runInput, stepKey_append phrase buf msgs hc, if_pos hch]
      · have hupper2 :
            toUpperChars ((buf ++ [c]) ++ (k2 :: ks2).filterMap process_key_input) =
              phrase := by
          rw [List.append_assoc]
          simpa using hupper
        have hrec := ih phrase (buf ++ [c]) msgs (by simp)
          (fun x hx => hall x (List.mem_cons_of_mem k hx)) hupper2
        simp only [runInput, stepKey_append phrase buf msgs hc, if_neg hch]
        exact hrec

/-- C4 as stated is false: with the configured phrase `unlock` (not all
uppercase), typing the line `unlock` — which case-insensitively equals the
phrase — and pressing Enter submits the line to the remote service instead
of unlocking, because `check_unlock_phrase` compares
`input.to_uppercase()` against the phrase verbatim and is only consulted
when a character is appended, never on Enter. -/
theorem claim_C4_counterexample :
    toLowerChars exLowerLine = toLowerChars exPhraseLower ∧
    get_user_input exPhraseLower [] exLowerKeys =
      Sum.inr (InputOutcome.submitted exLowerLine,
        [(ChatMessage.User exLowerLine, USER_COLOR)]) ∧
    InputOutcome.submitted exLowerLine ≠ InputOutcome.autoUnlock :=
  ⟨by decide, by decide, by decide⟩

/-- C4 amended: the unlock-phrase shortcut fires on the keystroke whose
appended character makes the uppercased buffer equal the configured phrase
verbatim (so it requires the phrase to be stored in uppercase), returning
the auto-unlock sentinel without touching the transcript; an auto-unlock
turn ends the session as `Unlocked` with zero remote calls. -/
theorem claim_C4_amended :
    (∀ (phrase buf : List Char) (msgs : List Entry) (keys : List Nat),
      keys ≠ [] →
      (∀ k ∈ keys, (process_key_input k).isSome = true) →
      toUpperChars (buf ++ keys.filterMap process_key_input) = phrase →
      runInput phrase (buf, msgs) keys = Sum.inr (InputOutcome.autoUnlock, msgs)) ∧
    (∀ (turns : Nat → Turn) (i f : Nat),
      turns i = Turn.autoUnlock →
      chatLoop turns i (f + 1) = (LockResult.Unlocked, 0)) := by
  refine ⟨?_, chatLoop_auto⟩
  intro phrase buf msgs keys hne hall hupper
  exact runInput_upper_match keys phrase buf msgs hne hall hupper

/-- Witness for the amended C4: typing `UNLOCK` with the default phrase
auto-unlocks on the final character, and an auto-unlock turn yields
`Unlocked` with zero remote calls. -/
theorem claim_C4_witness :
    runInput UNLOCK_PHRASE ([], []) exUpperKeys =
      Sum.inr (InputOutcome.autoUnlock, []) ∧
    chatLoop (fun _ => Turn.autoUnlock) 0 (3 + 1) = (LockResult.Unlocked, 0) :=
  ⟨claim_C4_amended.1 UNLOCK_PHRASE [] [] exUpperKeys (by decide) (by decide)
      (by decide),
   claim_C4_amended.2 (fun _ => Turn.autoUnlock) 0 3 rfl⟩

/-- C6: pressing Enter on a nonempty line whose trimmed lowercase form is
`unlock pls` returns the auto-unlock sentinel (pushing only the
auto-unlock decision entry) for every configured phrase, and an
auto-unlock turn at any turn index ends the session `Unlocked` with zero
remote calls. -/
theorem claim_C6 :
    (∀ (phrase buf : List Char) (msgs : List Entry),
      toLowerChars (trimChars buf) = unlockPlsText →
      stepKey phrase (buf, msgs) keysym.ENTER =
        Sum.inr (InputOutcome.autoUnlock,
          msgs ++ [(ChatMessage.Decision autoUnlockText, TEXT_COLOR)])) ∧
    (∀ (turns : Nat → Turn) (i f : Nat),
      turns i = Turn.autoUnlock →
      (chatLoop turns i (f + 1)).1 = LockResult.Unlocked ∧
      (chatLoop turns i (f + 1)).2 = 0) := by
  constructor
  · intro phrase buf msgs h
    have hne : buf ≠ [] := by
      intro h0
      rw [h0] at h
      exact absurd h (by decide)
    simp [stepKey, hne, h]
  · intro turns i f h
    constructor <;> simp [chatLoop, h]

/-- Witness for C6 on the line `Unlock Pls` and a concrete session. -/
theorem claim_C6_witness :
    stepKey UNLOCK_PHRASE (exUnlockPlsLine, []) keysym.ENTER =
      Sum.inr (InputOutcome.autoUnlock,
        [(ChatMessage.Decision autoUnlockText, TEXT_COLOR)]) ∧
    (chatLoop (fun _ => Turn.autoUnlock) 1 (1 + 1)).1 = LockResult.Unlocked ∧
    (chatLoop (fun _ => Turn.autoUnlock) 1 (1 + 1)).2 = 0 :=
  ⟨claim_C6.1 UNLOCK_PHRASE exUnlockPlsLine [] (by decide),
   claim_C6.2 (fun _ => Turn.autoUnlock) 1 1 rfl⟩

/-- C9: the reserved control keysyms produce no appended character and
always take their control action (Escape clears, Backspace deletes the
last character, Enter on a nonempty line returns an outcome); a character
is appended exactly for the space, digit and Latin-letter keysym ranges;
every other keysym leaves the buffer and transcript unchanged. -/
theorem claim_C9 :
    ∀ (k : Nat) (phrase buf : List Char) (msgs : List Entry),
      process_key_input keysym.ENTER = none ∧
      process_key_input keysym.ESCAPE = none ∧
      process_key_input keysym.BACKSPACE = none ∧
      ((∃ c, process_key_input k = some c) ↔
        (k = keysym.SPACE ∨ (0x30 ≤ k ∧ k ≤ 0x39) ∨ (0x41 ≤ k ∧ k ≤ 0x5a) ∨
          (0x61 ≤ k ∧ k ≤ 0x7a))) ∧
      stepKey phrase (buf, msgs) keysym.ESCAPE = Sum.inl ([], msgs) ∧
      stepKey phrase (buf, msgs) keysym.BACKSPACE = Sum.inl (buf.dropLast, msgs) ∧
      (buf ≠ [] → ∃ out, stepKey phrase (buf, msgs) keysym.ENTER = Sum.inr out) ∧
      (process_key_input k = none → k ≠ keysym.ENTER → k ≠ keysym.ESCAPE →
        k ≠ keysym.BACKSPACE → stepKey phrase (buf, msgs) k = Sum.inl (buf, msgs)) := by
  intro k phrase buf msgs
  refine ⟨by decide, by decide, by decide, ?_, ?_, ?_, ?_, ?_⟩
  · constructor
    · rintro ⟨c, hc⟩
      rw [process_key_input] at hc
      by_cases g1 : k = keysym.ENTER ∨ k = keysym.ESCAPE ∨ k = keysym.BACKSPACE
      · rw [if_pos g1] at hc
        cases hc
      · rw [if_neg g1] at hc
        by_cases g2 : k = keysym.SPACE
        · exact Or.inl g2
        · rw [if_neg g2] at hc
          by_cases g3 : (0x30 ≤ k ∧ k ≤ 0x39) ∨ (0x41 ≤ k ∧ k ≤ 0x5a) ∨
              (0x61 ≤ k ∧ k ≤ 0x7a)
          · exact Or.inr g3
          · rw [if_neg g3] at hc
            cases hc
    · intro hr
      rw [process_key_input]
      split_ifs with g1 g2 g3
      · exfalso
        simp only [keysym.ENTER, keysym.ESCAPE, keysym.BACKSPACE, keysym.SPACE]
          at g1 hr
        omega
      · exact ⟨' ', rfl⟩
      · exact ⟨Char.ofNat k, rfl⟩
      · exact absurd (hr.resolve_left g2) g3
  · simp [stepKey, keysym.ENTER, keysym.ESCAPE]
  · simp [stepKey, keysym.ENTER, keysym.ESCAPE, keysym.BACKSPACE]
  · intro hbuf
    by_cases hc : toLowerChars (trimChars buf) = unlockPlsText
    · exact ⟨(InputOutcome.autoUnlock,
        msgs ++ [(ChatMessage.Decision autoUnlockText, TEXT_COLOR)]),
        by simp [stepKey, hbuf, hc]⟩
    · exact ⟨(InputOutcome.submitted buf,
        msgs ++ [(ChatMessage.User buf, USER_COLOR)]),
        by simp [stepKey, hbuf, hc]⟩
  · intro hnone hne1 hne2 hne3
    simp [stepKey, hne1, hne2, hne3, hnone]

/-- Witness for C9 at the keysym 0x2a (`*`, not appendable) and a concrete
buffer. -/
theorem claim_C9_witness :
    stepKey UNLOCK_PHRASE (exHi, []) keysym.ESCAPE = Sum.inl ([], []) ∧
    stepKey UNLOCK_PHRASE (exHi, []) keysym.BACKSPACE =
      Sum.inl (exHi.dropLast, []) ∧
    (∃ out, stepKey UNLOCK_PHRASE (exHi, []) keysym.ENTER = Sum.inr out) ∧
    stepKey UNLOCK_PHRASE (exHi, []) 0x2a = Sum.inl (exHi, []) := by
  obtain ⟨h1, h2, h3, h4, h5, h6, h7, h8⟩ := claim_C9 0x2a UNLOCK_PHRASE exHi []
  exact ⟨h5, h6, h7 (by decide), h8 (by decide) (by decide) (by decide) (by decide)⟩

/-- C10: pressing Enter with an empty input line is a no-op: the buffer
and transcript are unchanged, no outcome is returned (so nothing is
submitted and no remote call can follow), and the event loop keeps
waiting for further input. -/
theorem claim_C10 :
    ∀ (phrase : List Char) (msgs : List Entry) (keys : List Nat),
      stepKey phrase ([], msgs) keysym.ENTER = Sum.inl ([], msgs) ∧
      runInput phrase ([], msgs) (keysym.ENTER :: keys) =
        runInput phrase ([], msgs) keys := by
  intro phrase msgs keys
  have h1 : stepKey phrase ([], msgs) keysym.ENTER = Sum.inl ([], msgs) := by
    simp [stepKey]
  exact ⟨h1, by simp only [runInput, h1]⟩

theorem grabResult_none (fuel : Nat) :
    ∀ (i : Nat) (attempts : Nat → GrabAttempt),
      (∀ j, j < fuel → attemptOk (attempts (i + j)) = false) →
      grabResult attempts i fuel = none := by
  induction fuel with
  | zero => intro i attempts _; rfl
  | succ f ih =>
    intro i attempts h
    have h0 : attemptOk (attempts i) = false := by simpa using h 0 (by omega)
    have hrec := ih (i + 1) attempts (fun j hj => by
      have := h (j + 1) (by omega)
      rwa [show i + 1 + j = i + (j + 1) by omega])
    simp [grabResult, h0, hrec]

theorem grabResult_ok (fuel : Nat) :
    ∀ (i j : Nat) (attempts : Nat → GrabAttempt),
      grabResult attempts i fuel = some j → attemptOk (attempts j) = true := by
  induction fuel with
  | zero => intro i j attempts h; cases h
  | succ f ih =>
    intro i j attempts h
    by_cases hok : attemptOk (attempts i) = true
    · simp only [grabResult, if_pos hok] at h
      cases h
      exact hok
    · simp only [grabResult, if_neg hok] at h
      exact ih (i + 1) j attempts h

theorem grabEvents_countP_le (fuel : Nat) :
    ∀ (i : Nat) (attempts : Nat → GrabAttempt),
      (grabEvents attempts i fuel).countP isGrabTry ≤ fuel := by
  induction fuel with
  | zero => intro i attempts; simp [grabEvents]
  | succ f ih =>
    intro i attempts
    by_cases hok : attemptOk (attempts i) = true
    · simp [grabEvents, hok, List.countP_cons, isGrabTry]
    · have := ih (i + 1) attempts
      simp only [grabEvents, if_neg hok]
      simp [List.countP_cons, isGrabTry]
      omega

theorem mapWin_not_mem_grabEvents (fuel : Nat) :
    ∀ (i : Nat) (attempts : Nat → GrabAttempt),
      SessionEvent.mapWin ∉ grabEvents attempts i fuel := by
  induction fuel with
  | zero => intro i attempts; simp [grabEvents]
  | succ f ih =>
    intro i attempts
    by_cases hok : attemptOk (attempts i) = true
    · simp [grabEvents, hok]
    · simp [grabEvents, hok, ih (i + 1) attempts]

/-- C7 as stated is false: within a turn the underlying transcript entry
count is not monotonically non-decreasing, because
`process_message_with_claude` pushes a transient thinking entry and then
pops it back off before appending the reply. -/
theorem claim_C7_counterexample :
    (turnMessageTrace [] exHi exOk).map List.length = [0, 1, 2, 1, 2, 2] ∧
    ¬ List.Chain' (fun x y => x ≤ y)
      ((turnMessageTrace [] exHi exOk).map List.length) := by
  have h1 : (turnMessageTrace [] exHi exOk).map List.length =
      [0, 1, 2, 1, 2, 2] := by decide
  refine ⟨h1, ?_⟩
  rw [h1]
  simp [List.chain'_cons]

/-- C7 amended: entries present at the start of a turn are never removed —
every transcript state reached during the turn extends the turn's initial
transcript (the only pop removes the transient thinking entry that was
just pushed), and the end-of-turn transcript extends the initial one, so
the entry count at turn boundaries is non-decreasing. -/
theorem claim_C7_amended :
    ∀ (msgs : List Entry) (input reply : List Char),
      (∀ s ∈ turnMessageTrace msgs input reply, msgs <+: s) ∧
      msgs <+: turnEndMessages msgs input reply ∧
      msgs.length ≤ (turnEndMessages msgs input reply).length := by
  intro msgs input reply
  have hall : ∀ s ∈ turnMessageTrace msgs input reply, msgs <+: s := by
    intro s hs
    simp only [turnMessageTrace, List.dropLast_concat, List.mem_cons,
      List.not_mem_nil, or_false] at hs
    rcases hs with rfl | rfl | rfl | rfl | rfl | rfl
    · exact List.prefix_refl _
    · exact List.prefix_append _ _
    · exact (List.prefix_append _ _).trans (List.prefix_append _ _)
    · exact List.prefix_append _ _
    · exact (List.prefix_append _ _).trans (List.prefix_append _ _)
    · exact ((List.prefix_append _ _).trans (List.prefix_append _ _)).trans
        (List.prefix_append _ _)
  have hEq : turnEndMessages msgs input reply =
      msgs ++ [(ChatMessage.User input, USER_COLOR)] ++
        [(ChatMessage.Assistant reply, ASSISTANT_COLOR)] ++
        decisionPush (scanVerdict reply) := by
    simp [turnEndMessages, turnMessageTrace, List.getLastD,
      List.dropLast_concat]
  have hend : msgs <+: turnEndMessages msgs input reply := by
    rw [hEq]
    exact ((List.prefix_append msgs _).trans (List.prefix_append _ _)).trans
      (List.prefix_append _ _)
  exact ⟨hall, hend, hend.length_le⟩

/-- Witness for the amended C7 on a concrete one-entry transcript. -/
theorem claim_C7_witness :
    [(ChatMessage.System exOk, SYSTEM_COLOR)] <+:
      turnEndMessages [(ChatMessage.System exOk, SYSTEM_COLOR)] exHi exOk ∧
    ([(ChatMessage.System exOk, SYSTEM_COLOR)] : List Entry).length ≤
      (turnEndMessages [(ChatMessage.System exOk, SYSTEM_COLOR)] exHi exOk).length ∧
    [(ChatMessage.System exOk, SYSTEM_COLOR)] <+:
      [(ChatMessage.System exOk, SYSTEM_COLOR)] :=
  ⟨(claim_C7_amended [(ChatMessage.System exOk, SYSTEM_COLOR)] exHi exOk).2.1,
   (claim_C7_amended [(ChatMessage.System exOk, SYSTEM_COLOR)] exHi exOk).2.2,
   (claim_C7_amended [(ChatMessage.System exOk, SYSTEM_COLOR)] exHi exOk).1
     [(ChatMessage.System exOk, SYSTEM_COLOR)] (by simp [turnMessageTrace])⟩

/-- C8: a grab attempt succeeds only when both the keyboard and the
pointer grab succeed; at most six attempts are made, each failed attempt
followed by the 100 ms sleep; a successful result always points at a
successful attempt; and when all six attempts fail the function returns
the error and the lock window is never mapped. -/
theorem claim_C8 :
    ∀ attempts : Nat → GrabAttempt,
      (∀ a : GrabAttempt,
        attemptOk a = true ↔ (a.kb = some true ∧ a.ptr = some true)) ∧
      (grabEvents attempts 0 6).countP isGrabTry ≤ 6 ∧
      (∀ j, grab_keyboard_and_mouse attempts = some j →
        attemptOk (attempts j) = true) ∧
      (∀ i f, attemptOk (attempts i) = false →
        grabEvents attempts i (f + 1) =
          SessionEvent.grabTry i :: SessionEvent.sleep100 ::
            grabEvents attempts (i + 1) f) ∧
      ((∀ j, j < 6 → attemptOk (attempts j) = false) →
        grab_keyboard_and_mouse attempts = none ∧
        SessionEvent.mapWin ∉ decideEvents attempts) := by
  intro attempts
  refine ⟨?_, grabEvents_countP_le 6 0 attempts,
    fun j h => grabResult_ok 6 0 j attempts h, ?_, ?_⟩
  · intro a
    simp [attemptOk]
  · intro i f h
    simp [grabEvents, h]
  · intro h
    have hnone : grabResult attempts 0 6 = none :=
      grabResult_none 6 0 attempts (fun j hj => by simpa using h j hj)
    refine ⟨hnone, ?_⟩
    rw [decideEvents, grab_keyboard_and_mouse, hnone]
    simp [mapWin_not_mem_grabEvents 6 0 attempts]

/-- Witness for C8 on the attempt source whose replies always error. -/
theorem claim_C8_witness :
    grab_keyboard_and_mouse (fun _ => GrabAttempt.mk none none) = none ∧
    SessionEvent.mapWin ∉ decideEvents (fun _ => GrabAttempt.mk none none) ∧
    (grabEvents (fun _ => GrabAttempt.mk none none) 0 6).countP isGrabTry ≤ 6 :=
  ⟨((claim_C8 (fun _ => GrabAttempt.mk none none)).2.2.2.2
      (fun j _ => by decide)).1,
   ((claim_C8 (fun _ => GrabAttempt.mk none none)).2.2.2.2
      (fun j _ => by decide)).2,
   (claim_C8 (fun _ => GrabAttempt.mk none none)).2.1⟩
